import Mathlib

/-!
Verification of the Offline-mode bookmark sync engine.

This file gives a shallow embedding, in Lean 4, of the core logic of the
repository:

* `sanitize_filename` (src/dist/setup_package/web.py) — filesystem-safe
  derivation of a bookmark title, used as local identity;
* `_scan_existing_files`, `_download_single_bookmark`, the result-collection
  loop and the success-ratio decision of `sync` (src/offline.py);
* `_archive_removed_bookmarks_enhanced` (src/offline.py);
* `_should_run_initial_sync`, `_is_sync_time` and `_run_sync_async`
  (src/service.py).

Machine-level detail that the claims do not touch (network transport, the
thread pool object itself, logging) is abstracted: external collaborator
outcomes are passed in as parameters, the worker pool is modelled by the
order in which task results are collected, and times are exact rationals.
-/

namespace OfflineMode

/-! ### Title sanitization (web.py, `sanitize_filename`) -/

/-- The characters removed by `re.sub(r'[\\/*?:"<>|]', "", name)`. -/
def invalidChars : List Char := ['\\', '/', '*', '?', ':', '"', '<', '>', '|']

/-- Characters stripped from both ends by Python's `name.strip('. ')`. -/
def isStripChar (c : Char) : Bool := c = '.' || c = ' '

/-- Python `str.strip('. ')` on a character list: drop the stripped
characters from the front and from the back. -/
def stripEnds (l : List Char) : List Char :=
  List.rdropWhile isStripChar (l.dropWhile isStripChar)

/-- Embedding of `web.sanitize_filename`:
remove invalid characters, strip leading/trailing dots and spaces,
truncate to 200 characters, and replace an empty result by "untitled". -/
def sanitize_filename (name : String) : String :=
  let l1 := name.data.filter (fun c => !invalidChars.contains c)
  let l2 := stripEnds l1
  let l3 := if l2.length > 200 then l2.take 200 else l2
  if l3.isEmpty then "untitled" else String.mk l3

/-! ### Data model -/

/-- A bookmark as consumed by `_download_single_bookmark`:
`bookmark.get('link')` may be absent, `bookmark.get('title', 'Untitled')`
and `bookmark.get('type', 'article')` always yield a string (the model
keeps the already-defaulted values). -/
structure Bookmark where
  link : Option String
  title : String
  kind : String
deriving DecidableEq, Repr

/-- An invocation of an external download collaborator:
`web.save_monolith(link, path/article, title)` or
`youtube.save(link, path/video, resolution)`. -/
inductive Effect where
  | article (link title : String)
  | video (link : String)
deriving DecidableEq, Repr

/-- The local file tree under the target root: file names (with extension)
in `article/`, `video/`, `archive/article/` and `archive/video/`. -/
structure FS where
  article : List String
  video : List String
  archiveArticle : List String
  archiveVideo : List String
deriving DecidableEq, Repr

/-- Per-run mutable state: the `online_urls` set, the `downloaded_urls`
set, and the file tree the run writes into.  The Python sets are modelled
as lists queried by membership. -/
structure RunState where
  online : List String
  downloaded : List String
  fs : FS
deriving DecidableEq, Repr

/-- Python `filename.endswith(suf)`. -/
def hasSuffix (suf f : String) : Bool := List.isSuffixOf suf.data f.data

/-- Python `filename[:-n]` for `n ≥ 1`: all but the last `n` characters. -/
def dropLastChars (f : String) (n : Nat) : String :=
  String.mk (f.data.take (f.data.length - n))

/-! ### Filesystem scan (offline.py, `_scan_existing_files`) -/

/-- Embedding of `_scan_existing_files`: the keys added to
`downloaded_urls` — every `article/*.html` name without its `.html` and
every `video/*.mp4` name without its `.mp4`.  A non-existent directory is
the empty list and contributes nothing. -/
def scan_existing_files (fs : FS) : List String :=
  (fs.article.filter (fun f => hasSuffix ".html" f)).map (fun f => dropLastChars f 5)
    ++ (fs.video.filter (fun f => hasSuffix ".mp4" f)).map (fun f => dropLastChars f 4)

/-! ### Per-bookmark download (offline.py, `_download_single_bookmark`)

The three cancellation checks of the Python function sample the pair
(run-level `stop_event`, process-level `_shutdown_flag`) at three
successive instants; the samples are passed in as `c1`, `c2`, `c3`
(`true` = one of the signals is set).  Both signals are only ever set,
never cleared, during a run, so `c1 → c2 → c3` in any real execution.
External collaborator behaviour is passed in: `articleOk` is whether
`web.save_monolith` returns without raising (on success it writes
`sanitize_filename(title) ++ ".html"` into `article/`), `videoOk` is
whether `youtube.save` returns without raising (it catches its own
errors and returns a bool that the caller ignores, so `videoOk = true`
in any normal execution), and `videoFiles` are the file names the video
collaborator creates in `video/` — `youtube.save` is not given the
bookmark title, its output name comes from the media tool's own
metadata. -/
def download_single_bookmark (c1 c2 c3 : Bool) (VIDEO : Bool)
    (articleOk videoOk : Bool) (videoFiles : List String)
    (bm : Bookmark) (st : RunState) : Option Bookmark × RunState × List Effect :=
  if c1 then (none, st, [])
  else
    match bm.link with
    | none => (none, st, [])
    | some link =>
      let st1 : RunState := { st with online := link :: st.online }
      let s := sanitize_filename bm.title
      if st1.downloaded.contains s then (some bm, st1, [])
      else if c2 then (none, st1, [])
      else if bm.kind = "article" then
        if articleOk then
          (some bm,
           { st1 with
               downloaded := s :: st1.downloaded,
               fs := { st1.fs with article := (s ++ ".html") :: st1.fs.article } },
           [Effect.article link bm.title])
        else (none, st1, [Effect.article link bm.title])
      else if bm.kind = "video" && VIDEO then
        if c3 then (none, st1, [])
        else if videoOk then
          (some bm,
           { st1 with
               downloaded := s :: st1.downloaded,
               fs := { st1.fs with video := st1.fs.video ++ videoFiles } },
           [Effect.video link])
        else (none, st1, [Effect.video link])
      else
        (some bm, { st1 with downloaded := s :: st1.downloaded }, [])

/-- A whole dispatch phase with no cancellation: every submitted bookmark
is run through `download_single_bookmark` against the shared run state.
The worker threads mutate the shared sets under `download_lock`; the
claims proved below are order-independent, so the pool is modelled by a
left-to-right pass.  `articleOk`, `videoOk` and `videoFiles` give the
external collaborator behaviour per bookmark. -/
def dispatch_bookmarks (VIDEO : Bool) (articleOk videoOk : Bookmark → Bool)
    (videoFiles : Bookmark → List String) :
    List Bookmark → RunState → RunState × List Effect
  | [], st => (st, [])
  | bm :: rest, st =>
    let r := download_single_bookmark false false false VIDEO
      (articleOk bm) (videoOk bm) (videoFiles bm) bm st
    let t := dispatch_bookmarks VIDEO articleOk videoOk videoFiles rest r.2.1
    (t.1, r.2.2 ++ t.2)

/-! ### Archiver (offline.py, `_archive_removed_bookmarks_enhanced`) -/

/-- The `current_online_titles` set built by the archiver: the sanitized
title of every current bookmark. -/
def current_online_titles (bms : List Bookmark) : List String :=
  bms.map (fun bm => sanitize_filename bm.title)

/-- One directory pass of the archiver: walk the listing `files` of
`article/` (suffix `.html`, `n = 5`) or `video/` (suffix `.mp4`,
`n = 4`).  A file with the right extension whose extension-stripped name
is not a current online title is moved into the archive directory
`arch` — unless a file of that name is already there, in which case it is
left in place (`if not os.path.exists(dest)`).  Returns the remaining
directory listing and the new archive listing. -/
def archive_dir_pass (suf : String) (n : Nat) (titles : List String) :
    List String → List String → List String × List String
  | [], arch => ([], arch)
  | f :: rest, arch =>
    if hasSuffix suf f && !(titles.contains (dropLastChars f n)) then
      if arch.contains f then
        let t := archive_dir_pass suf n titles rest arch
        (f :: t.1, t.2)
      else
        let t := archive_dir_pass suf n titles rest (arch ++ [f])
        (t.1, t.2)
    else
      let t := archive_dir_pass suf n titles rest arch
      (f :: t.1, t.2)

/-- Embedding of `_archive_removed_bookmarks_enhanced`: archive the
stale `article/*.html` files and the stale `video/*.mp4` files. -/
def archive_removed_bookmarks_enhanced (fs : FS) (bms : List Bookmark) : FS :=
  let titles := current_online_titles bms
  let a := archive_dir_pass ".html" 5 titles fs.article fs.archiveArticle
  let v := archive_dir_pass ".mp4" 4 titles fs.video fs.archiveVideo
  { article := a.1, video := v.1, archiveArticle := a.2, archiveVideo := v.2 }

/-! ### Result collection and the success decision (offline.py, `sync`) -/

/-- What `future.result()` yields for one task inside the collection
loop: the `Optional[Dict]` returned by `download_bookmark_safe`, or a
timeout / exception while getting the result. -/
inductive TaskOutcome where
  | ok (r : Option Bookmark)
  | err
deriving DecidableEq, Repr

/-- One completed future as seen by the `as_completed` loop of `sync`:
`flagAtCheck` is the value of `stop_event.is_set() or
_shutdown_flag.is_set()` sampled at the top of the loop iteration that
yields this future, `outcome` is the task's result.  Entries appear in
completion order. -/
structure FutureEntry where
  flagAtCheck : Bool
  outcome : TaskOutcome
deriving DecidableEq, Repr

/-- The collection loop of `sync` (lines 200-221): walk the futures in
completion order, break as soon as a cancellation signal is observed,
count a truthy result as completed and a falsy result, a timeout or an
exception as failed.  Returns `(completed_count, failed_count)`. -/
def collect_results : List FutureEntry → Nat × Nat
  | [] => (0, 0)
  | e :: rest =>
    if e.flagAtCheck then (0, 0)
    else
      let t := collect_results rest
      match e.outcome with
      | TaskOutcome.ok (some _) => (t.1 + 1, t.2)
      | TaskOutcome.ok none => (t.1, t.2 + 1)
      | TaskOutcome.err => (t.1, t.2 + 1)

/-- `success_rate = (completed_count / len(futures)) * 100 if futures
else 0` — exact rational arithmetic in place of Python floats. -/
def success_rate (completed nfutures : Nat) : ℚ :=
  if nfutures = 0 then 0 else ((completed : ℚ) / (nfutures : ℚ)) * 100

/-- Outcome of the tail of `sync` after the counts are in. -/
structure ReconcileResult where
  fs : FS
  archiverInvoked : Bool
  success : Bool
deriving DecidableEq, Repr

/-- The tail of `sync`: `if not futures: return False` (before any ratio
is computed); otherwise compute `success_rate`, invoke
`_archive_removed_bookmarks_enhanced` iff `success_rate >= 80`, and
return `success_rate >= 80`. -/
def sync_reconcile (completed nfutures : Nat) (fs : FS) (bms : List Bookmark) :
    ReconcileResult :=
  if nfutures = 0 then ⟨fs, false, false⟩
  else if success_rate completed nfutures ≥ 80 then
    ⟨archive_removed_bookmarks_enhanced fs bms, true, true⟩
  else ⟨fs, false, false⟩

/-! ### Scheduler (service.py) -/

/-- `SYNC_INTERVAL_MINUTES = 720` (service.py line 31). -/
def SYNC_INTERVAL_MINUTES : ℚ := 720

/-- Embedding of `OfflineModeService._should_run_initial_sync`: times
are rational seconds-since-epoch, `last` is `self.last_sync_time`
(`none` when no previous sync time is recorded).  `elapsed_minutes =
(now - last).total_seconds() / 60`; run iff no previous time or
`elapsed_minutes >= SYNC_INTERVAL_MINUTES`. -/
def should_run_initial_sync (last : Option ℚ) (now : ℚ) : Bool :=
  match last with
  | none => true
  | some t => decide ((now - t) / 60 ≥ SYNC_INTERVAL_MINUTES)

/-- Embedding of `OfflineModeService._is_sync_time`, the main-loop
check: same inputs, written from its own source lines 189-201. -/
def is_sync_time (last : Option ℚ) (now : ℚ) : Bool :=
  match last with
  | none => true
  | some t =>
    let elapsed_minutes := (now - t) / 60
    decide (elapsed_minutes ≥ SYNC_INTERVAL_MINUTES)

/-- Scheduler-visible state for `_run_sync_async`: whether
`self.sync_thread` is alive, and how many sync threads (each of which
creates exactly one worker pool inside `offline.sync`) have ever been
started. -/
structure ServiceState where
  syncThreadAlive : Bool
  poolCreations : Nat
deriving DecidableEq, Repr

/-- Embedding of `OfflineModeService._run_sync_async`.  The body runs
under `self.sync_lock`, so the check-and-launch is a single atomic
transition: if the previous run's thread is still alive the trigger is
dropped (`return False`, nothing queued, no thread and hence no worker
pool created); otherwise a new sync thread is started (`return True`). -/
def run_sync_async (s : ServiceState) : ServiceState × Bool :=
  if s.syncThreadAlive then (s, false)
  else (⟨true, s.poolCreations + 1⟩, true)

/-! ## Theorems -/

/-- Shared helper: for a non-empty futures list, the code's
`success_rate >= 80` test is the same as the spec's `C/N ≥ 0.8`. -/
theorem rate_ge_iff (c n : Nat) (hn : n ≠ 0) :
    success_rate c n ≥ 80 ↔ (c : ℚ) / (n : ℚ) ≥ 8 / 10 := by
  unfold success_rate
  rw [if_neg hn, ge_iff_le, ge_iff_le, show (80 : ℚ) = 8 / 10 * 100 by norm_num]
  exact mul_le_mul_right (by norm_num : (0 : ℚ) < 100)

/-- Shared helper: for a non-empty futures list, `sync` reports success
exactly when the success rate reaches 80. -/
theorem sync_reconcile_success_iff (c n : Nat) (fs : FS) (bms : List Bookmark)
    (hn : n ≠ 0) :
    (sync_reconcile c n fs bms).success = true ↔ success_rate c n ≥ 80 := by
  unfold sync_reconcile
  rw [if_neg hn]
  split_ifs with h <;> simpa using h

/-- C1: for every run with `n` submitted download tasks of which `c`
complete successfully (`n > 0`), `sync` returns `True` iff `c/n ≥ 0.8`;
at exactly `c/n = 0.8` (`n = 100`, `c = 80`) it returns `True`, and just
below (`c = 79`) it returns `False`. -/
theorem sync_success_threshold_law :
    (∀ (completed nfutures : Nat) (fs : FS) (bms : List Bookmark),
        0 < nfutures →
          ((sync_reconcile completed nfutures fs bms).success = true ↔
            (completed : ℚ) / (nfutures : ℚ) ≥ 8 / 10))
    ∧ (∀ (fs : FS) (bms : List Bookmark),
        (sync_reconcile 80 100 fs bms).success = true)
    ∧ (∀ (fs : FS) (bms : List Bookmark),
        (sync_reconcile 79 100 fs bms).success = false) := by
  refine ⟨?_, ?_, ?_⟩
  · intro c n fs bms hn
    rw [sync_reconcile_success_iff c n fs bms hn.ne', rate_ge_iff c n hn.ne']
  · intro fs bms
    rw [sync_reconcile_success_iff 80 100 fs bms (by norm_num),
      rate_ge_iff 80 100 (by norm_num)]
    norm_num
  · intro fs bms
    refine Bool.eq_false_iff.mpr fun hb => ?_
    have h := (sync_reconcile_success_iff 79 100 fs bms (by norm_num)).mp hb
    rw [rate_ge_iff 79 100 (by norm_num)] at h
    norm_num at h

/-- Witness for C1: the threshold law applied at the concrete boundary
run with 100 submitted tasks and 80 completions. -/
theorem sync_success_threshold_law_witness :
    0 < 100 ∧
      ((sync_reconcile 80 100 ⟨[], [], [], []⟩ []).success = true ↔
        (80 : ℚ) / (100 : ℚ) ≥ 8 / 10) :=
  ⟨by decide, sync_success_threshold_law.1 80 100 ⟨[], [], [], []⟩ [] (by decide)⟩

/-- C4: the archiver is invoked only when the run's success ratio meets
the 0.8 threshold, and for every run with ratio below 0.8 the whole file
tree — `article/`, `video/` and the archive directories — is left
untouched. -/
theorem archival_gated_on_threshold :
    (∀ (c n : Nat) (fs : FS) (bms : List Bookmark),
        (sync_reconcile c n fs bms).archiverInvoked = true →
          n ≠ 0 ∧ (c : ℚ) / (n : ℚ) ≥ 8 / 10)
    ∧ (∀ (c n : Nat) (fs : FS) (bms : List Bookmark),
        (c : ℚ) / (n : ℚ) < 8 / 10 → (sync_reconcile c n fs bms).fs = fs) := by
  constructor
  · intro c n fs bms h
    by_cases hn : n = 0
    · subst hn
      simp [sync_reconcile] at h
    · refine ⟨hn, ?_⟩
      rw [← rate_ge_iff c n hn]
      by_contra hr
      unfold sync_reconcile at h
      rw [if_neg hn, if_neg hr] at h
      simp at h
  · intro c n fs bms h
    by_cases hn : n = 0
    · subst hn
      simp [sync_reconcile]
    · have hr : ¬ (success_rate c n ≥ 80) := by
        rw [rate_ge_iff c n hn]
        exact not_le.mpr h
      unfold sync_reconcile
      rw [if_neg hn, if_neg hr]

/-- Witness for C4: a 50%-failure run (5 of 10 completed) does not move
or modify any local file. -/
theorem archival_gated_on_threshold_witness :
    (5 : ℚ) / (10 : ℚ) < 8 / 10 ∧
      (sync_reconcile 5 10 ⟨["stale.html"], ["old.mp4"], [], []⟩ []).fs =
        ⟨["stale.html"], ["old.mp4"], [], []⟩ :=
  ⟨by norm_num,
   archival_gated_on_threshold.2 5 10 ⟨["stale.html"], ["old.mp4"], [], []⟩ []
     (by norm_num)⟩

/-- C10: the success-ratio computation never divides by zero: with an
empty futures list `sync` returns `False` (and invokes no archiver)
before any ratio is computed, the guarded `success_rate` expression
yields `0` there, and the real division `completed / len(futures)` is
evaluated only in the branch where the futures list is non-empty, where
its divisor is non-zero. -/
theorem no_division_by_zero :
    (∀ (c : Nat) (fs : FS) (bms : List Bookmark),
        sync_reconcile c 0 fs bms = ⟨fs, false, false⟩)
    ∧ (∀ c : Nat, success_rate c 0 = 0)
    ∧ (∀ c n : Nat, n ≠ 0 →
        success_rate c n = ((c : ℚ) / (n : ℚ)) * 100 ∧ ((n : ℚ) ≠ 0)) := by
  refine ⟨fun c fs bms => rfl, fun c => rfl, fun c n hn => ⟨?_, ?_⟩⟩
  · unfold success_rate
    rw [if_neg hn]
  · exact Nat.cast_ne_zero.mpr hn

/-- Witness for C10: the guarded rate at one completed task out of two. -/
theorem no_division_by_zero_witness :
    (2 : Nat) ≠ 0 ∧ (success_rate 1 2 = ((1 : ℚ) / (2 : ℚ)) * 100 ∧ ((2 : ℚ) ≠ 0)) :=
  ⟨by decide, no_division_by_zero.2.2 1 2 (by decide)⟩

/-- C7: on scheduler startup an immediate catch-up run is triggered iff
the persisted last sync time is absent or at least
`SYNC_INTERVAL_MINUTES` (720 minutes = 12 hours) have elapsed; a last
sync 13 hours ago triggers a run, one 1 hour ago does not. -/
theorem scheduler_catch_up_on_startup :
    (∀ (last : Option ℚ) (now : ℚ),
        should_run_initial_sync last now = true ↔
          (last = none ∨ ∃ t, last = some t ∧ (now - t) / 60 ≥ SYNC_INTERVAL_MINUTES))
    ∧ (∀ now : ℚ, should_run_initial_sync (some (now - 13 * 3600)) now = true)
    ∧ (∀ now : ℚ, should_run_initial_sync (some (now - 1 * 3600)) now = false) := by
  refine ⟨?_, ?_, ?_⟩
  · intro last now
    cases last with
    | none => simp [should_run_initial_sync]
    | some t => simp [should_run_initial_sync]
  · intro now
    have h : now - (now - 13 * 3600) = 46800 := by ring
    simp only [should_run_initial_sync, SYNC_INTERVAL_MINUTES, h, decide_eq_true_eq]
    norm_num
  · intro now
    have h : now - (now - 1 * 3600) = 3600 := by ring
    simp only [should_run_initial_sync, SYNC_INTERVAL_MINUTES, h,
      decide_eq_false_iff_not]
    norm_num

/-- C9: the startup predicate and the main-loop predicate are the same
boolean function of the scheduler state: both fire iff the last sync
time is absent or at least `SYNC_INTERVAL_MINUTES` have elapsed. -/
theorem startup_and_loop_predicates_agree :
    (∀ (last : Option ℚ) (now : ℚ),
        should_run_initial_sync last now = is_sync_time last now)
    ∧ (∀ (last : Option ℚ) (now : ℚ),
        is_sync_time last now = true ↔
          (last = none ∨ ∃ t, last = some t ∧ (now - t) / 60 ≥ SYNC_INTERVAL_MINUTES)) := by
  constructor
  · intro last now
    cases last <;> rfl
  · intro last now
    cases last with
    | none => simp [is_sync_time]
    | some t => simp [is_sync_time]

/-- C8: a trigger arriving while the previous run's thread is still
alive is dropped — the state is unchanged, nothing is queued and no
thread (hence no worker pool) is created; and a trigger from idle starts
exactly one thread, so that a second trigger issued while it is in
flight leaves the pool-creation count at one more than before. -/
theorem single_flight_guarantee :
    (∀ s : ServiceState, s.syncThreadAlive = true → run_sync_async s = (s, false))
    ∧ (∀ s : ServiceState, s.syncThreadAlive = false →
        run_sync_async s = (⟨true, s.poolCreations + 1⟩, true)
        ∧ run_sync_async (run_sync_async s).1 = ((run_sync_async s).1, false)
        ∧ (run_sync_async (run_sync_async s).1).1.poolCreations = s.poolCreations + 1) := by
  constructor
  · intro s h
    simp [run_sync_async, h]
  · intro s h
    simp [run_sync_async, h]

/-- Witness for C8: from the idle state, the first trigger starts a run
and the second is dropped with the pool-creation count at one. -/
theorem single_flight_guarantee_witness :
    run_sync_async ⟨false, 0⟩ = (⟨true, 1⟩, true)
    ∧ run_sync_async (run_sync_async ⟨false, 0⟩).1 = ((run_sync_async ⟨false, 0⟩).1, false)
    ∧ (run_sync_async (run_sync_async ⟨false, 0⟩).1).1.poolCreations = 0 + 1 :=
  single_flight_guarantee.2 ⟨false, 0⟩ (by decide)

/-- C2: a bookmark whose download task runs while the run-level
cancellation signal or the process-level shutdown flag is set is skipped
immediately — the task returns the not-attempted marker `None` with no
collaborator invocation and no state change — and it is not counted in
the run's failure count: both signals are monotone (set, never cleared,
within a run), so the collection loop observes the signal at the
iteration that yields this future (`flagAtCheck = true`) and breaks
there, leaving the counts exactly as if that future and everything after
it had never been collected. -/
theorem cancelled_bookmark_not_counted :
    (∀ (c2 c3 VIDEO articleOk videoOk : Bool) (videoFiles : List String)
        (bm : Bookmark) (st : RunState),
        download_single_bookmark true c2 c3 VIDEO articleOk videoOk videoFiles bm st =
          (none, st, []))
    ∧ (∀ (entries : List FutureEntry) (i : Nat) (hi : i < entries.length),
        (entries.get ⟨i, hi⟩).flagAtCheck = true →
          collect_results entries = collect_results (entries.take i)) := by
  constructor
  · intro c2 c3 VIDEO articleOk videoOk videoFiles bm st
    rfl
  · intro entries
    induction entries with
    | nil =>
      intro i hi
      exact absurd hi (by simp)
    | cons e rest ih =>
      intro i hi hflag
      cases i with
      | zero =>
        have he : e.flagAtCheck = true := hflag
        simp [collect_results, he]
      | succ j =>
        by_cases he : e.flagAtCheck
        · simp [collect_results, he]
        · have hj : j < rest.length := Nat.lt_of_succ_lt_succ hi
          have hrec := ih j hj hflag
          simp [collect_results, he, hrec]

/-- Witness for C2: a single task that ran with the signal set is
reported as not attempted and contributes to no count. -/
theorem cancelled_bookmark_not_counted_witness :
    download_single_bookmark true false false false true true []
        ⟨some "u", "T", "article"⟩ ⟨[], [], ⟨[], [], [], []⟩⟩ =
      (none, ⟨[], [], ⟨[], [], [], []⟩⟩, [])
    ∧ collect_results [⟨true, TaskOutcome.ok none⟩] =
        collect_results ([⟨true, TaskOutcome.ok none⟩].take 0) :=
  ⟨cancelled_bookmark_not_counted.1 false false false true true []
      ⟨some "u", "T", "article"⟩ ⟨[], [], ⟨[], [], [], []⟩⟩,
   cancelled_bookmark_not_counted.2 [⟨true, TaskOutcome.ok none⟩] 0 (by decide) (by decide)⟩

/-- Counterexample for C6: the sanitization is not injective on
all-ASCII, reasonable-length titles — the spec's own example collides
with its image: "My: Article?" and "My Article" are distinct titles with
the same sanitized form. -/
theorem sanitize_not_injective :
    sanitize_filename "My: Article?" = sanitize_filename "My Article"
    ∧ "My: Article?" ≠ "My Article" := by
  constructor
  · decide
  · decide

/-- Shared helper: stripping ends only keeps characters of the input. -/
theorem mem_stripEnds {c : Char} {l : List Char} (h : c ∈ stripEnds l) : c ∈ l := by
  unfold stripEnds at h
  exact (List.dropWhile_suffix isStripChar).subset
    ((List.rdropWhile_prefix isStripChar (l.dropWhile isStripChar)).subset h)

/-- Shared helper: stripping ends never lengthens the list. -/
theorem stripEnds_length_le (l : List Char) : (stripEnds l).length ≤ l.length :=
  le_trans
    (List.IsPrefix.length_le
      (List.rdropWhile_prefix isStripChar (l.dropWhile isStripChar)))
    (List.IsSuffix.length_le (List.dropWhile_suffix isStripChar))

/-- Shared helper: a prefix of a list that `dropWhile` leaves unchanged
is itself left unchanged by `dropWhile`. -/
theorem dropWhile_of_prefix_fixed {p : Char → Bool} {x m : List Char}
    (hpre : x <+: m) (hm : List.dropWhile p m = m) : List.dropWhile p x = x := by
  cases x with
  | nil => rfl
  | cons a x1 =>
    obtain ⟨t, ht⟩ := hpre
    have hpa : p a = false := by
      by_contra hpa
      rw [Bool.not_eq_false] at hpa
      rw [← ht, List.cons_append, List.dropWhile_cons, if_pos hpa] at hm
      have hle := List.IsSuffix.length_le (List.dropWhile_suffix (l := x1 ++ t) p)
      rw [hm] at hle
      simp at hle
    rw [List.dropWhile_cons, if_neg (by simp [hpa])]

/-- Shared helper: a stripped list needs no further stripping. -/
theorem stripEnds_idem (l : List Char) : stripEnds (stripEnds l) = stripEnds l := by
  unfold stripEnds
  rw [dropWhile_of_prefix_fixed
      (List.rdropWhile_prefix isStripChar (l.dropWhile isStripChar))
      (List.dropWhile_idempotent isStripChar l),
    List.rdropWhile_idempotent]

/-- Shared helper: the character list of a constructed string. -/
theorem mk_data (l : List Char) : (String.mk l).data = l := rfl

/-- Shared helper: the output of `sanitize_filename` is either the
"untitled" placeholder or a non-empty sublist of at most 200 characters
of the stripped, filtered input. -/
theorem sanitize_filename_cases (name : String) :
    sanitize_filename name = "untitled" ∨
    ∃ l : List Char,
      sanitize_filename name = String.mk l ∧ l ≠ [] ∧ l.length ≤ 200 ∧
      l.Sublist (stripEnds (name.data.filter fun c => !invalidChars.contains c)) := by
  simp only [sanitize_filename]
  by_cases h2 : (stripEnds (name.data.filter fun c => !invalidChars.contains c)).length > 200
  · rw [if_pos h2]
    by_cases hemp :
        ((stripEnds (name.data.filter fun c => !invalidChars.contains c)).take 200).isEmpty
    · rw [if_pos hemp]
      exact Or.inl rfl
    · rw [if_neg hemp]
      refine Or.inr ⟨_, rfl, ?_, ?_, List.take_sublist _ _⟩
      · intro hnil
        rw [hnil] at hemp
        simp at hemp
      · rw [List.length_take]
        omega
  · rw [if_neg h2]
    by_cases hemp :
        (stripEnds (name.data.filter fun c => !invalidChars.contains c)).isEmpty
    · rw [if_pos hemp]
      exact Or.inl rfl
    · rw [if_neg hemp]
      refine Or.inr ⟨_, rfl, ?_, by omega, List.Sublist.refl _⟩
      intro hnil
      rw [hnil] at hemp
      simp at hemp

/-- C6 amended: the title sanitization is deterministic, its output
contains none of the invalid filesystem characters, is capped at 200
characters, is never empty (the empty result is replaced by the
"untitled" placeholder), carries no leading or trailing space or dot for
reasonable-length (≤ 200 characters) inputs, and maps "My: Article?" to
"My Article".  (The collision-freeness conjunct of the original claim is
dropped: distinct titles may sanitize to the same key, see
`sanitize_not_injective`.) -/
theorem sanitize_filename_props :
    (∀ x y : String, x = y → sanitize_filename x = sanitize_filename y)
    ∧ (∀ (name : String) (c : Char), c ∈ (sanitize_filename name).data →
        c ∉ invalidChars)
    ∧ (∀ name : String, (sanitize_filename name).data.length ≤ 200)
    ∧ (∀ name : String, (sanitize_filename name).data ≠ [])
    ∧ (∀ name : String, name.data.length ≤ 200 →
        stripEnds (sanitize_filename name).data = (sanitize_filename name).data)
    ∧ sanitize_filename "" = "untitled"
    ∧ sanitize_filename "My: Article?" = "My Article" := by
  refine ⟨fun x y h => by rw [h], ?_, ?_, ?_, ?_, by decide, by decide⟩
  · intro name c hc
    rcases sanitize_filename_cases name with h | ⟨l, hl, _, _, hsub⟩
    · rw [h] at hc
      revert hc
      revert c
      decide
    · rw [hl, mk_data] at hc
      have hc3 := mem_stripEnds (hsub.subset hc)
      have hfil := (List.mem_filter.mp hc3).2
      simpa using hfil
  · intro name
    rcases sanitize_filename_cases name with h | ⟨l, hl, _, hlen, _⟩
    · rw [h]
      decide
    · rw [hl, mk_data]
      exact hlen
  · intro name
    rcases sanitize_filename_cases name with h | ⟨l, hl, hne, _, _⟩
    · rw [h]
      decide
    · rw [hl, mk_data]
      exact hne
  · intro name hlen
    simp only [sanitize_filename]
    have hfl : (name.data.filter fun c => !invalidChars.contains c).length ≤ 200 :=
      le_trans (List.length_filter_le _ _) hlen
    have hstr : (stripEnds (name.data.filter fun c => !invalidChars.contains c)).length ≤ 200 :=
      le_trans (stripEnds_length_le _) hfl
    have hgt : ¬ ((stripEnds (name.data.filter fun c => !invalidChars.contains c)).length > 200) := by
      omega
    rw [if_neg hgt]
    by_cases hemp : (stripEnds (name.data.filter fun c => !invalidChars.contains c)).isEmpty
    · rw [if_pos hemp]
      decide
    · rw [if_neg hemp, mk_data]
      exact stripEnds_idem _

/-- Witness for the amended C6: the sanitization properties evaluated at
concrete titles. -/
theorem sanitize_filename_props_witness :
    sanitize_filename "My Article" = sanitize_filename "My Article"
    ∧ 'M' ∉ invalidChars
    ∧ stripEnds (sanitize_filename "My Article").data =
        (sanitize_filename "My Article").data :=
  ⟨sanitize_filename_props.1 "My Article" "My Article" rfl,
   sanitize_filename_props.2.1 "My Article" 'M' (by decide),
   sanitize_filename_props.2.2.2.2.1 "My Article" (by decide)⟩

/-- Shared helper: Boolean membership test of the embedded Python sets. -/
theorem contains_iff_mem {l : List String} {a : String} :
    l.contains a = true ↔ a ∈ l :=
  List.elem_iff

/-- Shared helper: the files an archiver pass keeps in the directory
form a sublist of the original listing. -/
theorem archive_dir_pass_kept_sublist (suf : String) (n : Nat) (titles : List String) :
    ∀ (files arch : List String),
      (archive_dir_pass suf n titles files arch).1.Sublist files := by
  intro files
  induction files with
  | nil =>
    intro arch
    simp [archive_dir_pass]
  | cons f rest ih =>
    intro arch
    simp only [archive_dir_pass]
    split
    · split
      · exact (ih arch).cons₂ f
      · exact (ih (arch ++ [f])).cons f
    · exact (ih arch).cons₂ f

/-- Shared helper: an archiver pass never removes a file from the
archive directory. -/
theorem archive_dir_pass_arch_mono (suf : String) (n : Nat) (titles : List String) :
    ∀ (files arch : List String), arch ⊆ (archive_dir_pass suf n titles files arch).2 := by
  intro files
  induction files with
  | nil =>
    intro arch
    simp [archive_dir_pass]
  | cons f rest ih =>
    intro arch
    simp only [archive_dir_pass]
    split
    · split
      · exact ih arch
      · exact fun x hx => ih (arch ++ [f]) (List.mem_append_left _ hx)
    · exact ih arch

/-- Shared helper: everything in the archive directory after a pass was
already archived or came from the directory listing. -/
theorem archive_dir_pass_arch_new (suf : String) (n : Nat) (titles : List String) :
    ∀ (files arch : List String) (f0 : String),
      f0 ∈ (archive_dir_pass suf n titles files arch).2 → f0 ∈ arch ∨ f0 ∈ files := by
  intro files
  induction files with
  | nil =>
    intro arch f0 h
    simp [archive_dir_pass] at h
    exact Or.inl h
  | cons f rest ih =>
    intro arch f0 h
    simp only [archive_dir_pass] at h
    by_cases hf : f0 = f
    · subst hf
      exact Or.inr (List.mem_cons_self _ _)
    · have step : f0 ∈ arch ∨ f0 ∈ rest → f0 ∈ arch ∨ f0 ∈ f :: rest :=
        fun hc => hc.imp id (List.mem_cons_of_mem f)
      split at h
      · split at h
        · exact step (ih arch f0 h)
        · rcases ih (arch ++ [f]) f0 h with ha2 | hr
          · rcases List.mem_append.mp ha2 with ha | hone
            · exact Or.inl ha
            · exact absurd (List.mem_singleton.mp hone) hf
          · exact Or.inr (List.mem_cons_of_mem f hr)
      · exact step (ih arch f0 h)

/-- Shared helper: a file absent from the directory listing is in the
final archive iff it was there before the pass. -/
theorem archive_dir_pass_arch_stable (suf : String) (n : Nat) (titles : List String)
    (files arch : List String) (f0 : String) (hf : f0 ∉ files) :
    f0 ∈ (archive_dir_pass suf n titles files arch).2 ↔ f0 ∈ arch := by
  constructor
  · intro h
    rcases archive_dir_pass_arch_new suf n titles files arch f0 h with h | h
    · exact h
    · exact absurd h hf
  · intro h
    exact archive_dir_pass_arch_mono suf n titles files arch h

/-- Shared helper: full membership description of one archiver pass for
a file of the directory listing (listings of real directories are
duplicate-free).  A file with the right extension whose stripped name is
not a current title and which has no same-named archived copy is moved;
every other file stays in the directory, and the archive keeps exactly
what it had. -/
theorem archive_dir_pass_mem (suf : String) (n : Nat) (titles : List String) :
    ∀ (files arch : List String), files.Nodup → ∀ f0 ∈ files,
      if (hasSuffix suf f0 && !titles.contains (dropLastChars f0 n)) = true ∧ f0 ∉ arch
      then f0 ∉ (archive_dir_pass suf n titles files arch).1
        ∧ f0 ∈ (archive_dir_pass suf n titles files arch).2
      else f0 ∈ (archive_dir_pass suf n titles files arch).1
        ∧ (f0 ∈ (archive_dir_pass suf n titles files arch).2 ↔ f0 ∈ arch) := by
  intro files
  induction files with
  | nil =>
    intro arch _ f0 h
    exact absurd h (List.not_mem_nil f0)
  | cons f rest ih =>
    intro arch hnd f0 hmem
    have hndr : rest.Nodup := hnd.of_cons
    rcases List.mem_cons.mp hmem with heq | hr
    · subst heq
      have hfr : f0 ∉ rest := (List.nodup_cons.mp hnd).1
      by_cases hcond : (hasSuffix suf f0 && !titles.contains (dropLastChars f0 n)) = true
      · by_cases harch : f0 ∈ arch
        · rw [if_neg (by simp [harch])]
          simp only [archive_dir_pass, if_pos hcond, if_pos (contains_iff_mem.mpr harch)]
          exact ⟨List.mem_cons_self _ _, fun _ => harch,
            fun h => archive_dir_pass_arch_mono suf n titles rest arch h⟩
        · rw [if_pos ⟨hcond, harch⟩]
          have hnc : ¬ (arch.contains f0 = true) := fun h => harch (contains_iff_mem.mp h)
          simp only [archive_dir_pass, if_pos hcond, if_neg hnc]
          constructor
          · intro hk
            exact hfr
              ((archive_dir_pass_kept_sublist suf n titles rest (arch ++ [f0])).subset hk)
          · exact archive_dir_pass_arch_mono suf n titles rest (arch ++ [f0])
              (List.mem_append_right _ (List.mem_singleton_self _))
      · rw [if_neg (fun hc => hcond hc.1)]
        simp only [archive_dir_pass, if_neg hcond]
        exact ⟨List.mem_cons_self _ _,
          archive_dir_pass_arch_stable suf n titles rest arch f0 hfr⟩
    · have hne : f0 ≠ f := fun h => (List.nodup_cons.mp hnd).1 (h ▸ hr)
      have harchiff : f0 ∈ arch ++ [f] ↔ f0 ∈ arch := by
        simp [hne]
      by_cases hcondf : (hasSuffix suf f && !titles.contains (dropLastChars f n)) = true
      · by_cases hcf : arch.contains f = true
        · -- head is stale but already archived: kept, archive unchanged
          have key := ih arch hndr f0 hr
          simp only [archive_dir_pass, if_pos hcondf, if_pos hcf]
          by_cases hc : (hasSuffix suf f0 && !titles.contains (dropLastChars f0 n)) = true
              ∧ f0 ∉ arch
          · rw [if_pos hc]
            rw [if_pos hc] at key
            exact ⟨fun h => key.1 ((List.mem_cons.mp h).resolve_left hne), key.2⟩
          · rw [if_neg hc]
            rw [if_neg hc] at key
            exact ⟨List.mem_cons_of_mem f key.1, key.2⟩
        · -- head moved: tail pass runs over the grown archive
          have key2 := ih (arch ++ [f]) hndr f0 hr
          simp only [archive_dir_pass, if_pos hcondf, if_neg hcf]
          by_cases hc : (hasSuffix suf f0 && !titles.contains (dropLastChars f0 n)) = true
              ∧ f0 ∉ arch
          · rw [if_pos hc]
            rw [if_pos ⟨hc.1, fun h => hc.2 (harchiff.mp h)⟩] at key2
            exact key2
          · rw [if_neg hc]
            rw [if_neg (fun hcc => hc ⟨hcc.1, fun h => hcc.2 (harchiff.mpr h)⟩)] at key2
            exact ⟨key2.1, key2.2.trans harchiff⟩
      · -- head has the wrong extension or is still online: kept
        have key := ih arch hndr f0 hr
        simp only [archive_dir_pass, if_neg hcondf]
        by_cases hc : (hasSuffix suf f0 && !titles.contains (dropLastChars f0 n)) = true
            ∧ f0 ∉ arch
        · rw [if_pos hc]
          rw [if_pos hc] at key
          exact ⟨fun h => key.1 ((List.mem_cons.mp h).resolve_left hne), key.2⟩
        · rw [if_neg hc]
          rw [if_neg hc] at key
          exact ⟨List.mem_cons_of_mem f key.1, key.2⟩

/-- Shared helper: one archiver pass neither deletes nor duplicates
files — directory plus archive afterwards is a permutation of directory
plus archive before. -/
theorem archive_dir_pass_perm (suf : String) (n : Nat) (titles : List String) :
    ∀ (files arch : List String),
      ((archive_dir_pass suf n titles files arch).1
        ++ (archive_dir_pass suf n titles files arch).2).Perm (files ++ arch) := by
  intro files
  induction files with
  | nil =>
    intro arch
    simp [archive_dir_pass]
  | cons f rest ih =>
    intro arch
    simp only [archive_dir_pass]
    split
    · split
      · exact (ih arch).cons f
      · refine (ih (arch ++ [f])).trans ?_
        rw [← List.append_assoc]
        exact List.perm_append_singleton f (rest ++ arch)
    · exact (ih arch).cons f

/-- Shared helper: an archiver pass never overwrites — if the archive
listing is duplicate-free before, it stays duplicate-free after. -/
theorem archive_dir_pass_arch_nodup (suf : String) (n : Nat) (titles : List String) :
    ∀ (files arch : List String), arch.Nodup →
      (archive_dir_pass suf n titles files arch).2.Nodup := by
  intro files
  induction files with
  | nil =>
    intro arch h
    simpa [archive_dir_pass] using h
  | cons f rest ih =>
    intro arch h
    simp only [archive_dir_pass]
    by_cases hcond : (hasSuffix suf f && !titles.contains (dropLastChars f n)) = true
    · by_cases hcf : arch.contains f = true
      · rw [if_pos hcond, if_pos hcf]
        exact ih arch h
      · rw [if_pos hcond, if_neg hcf]
        refine ih (arch ++ [f]) ?_
        have hfa : f ∉ arch := fun hm => hcf (contains_iff_mem.mpr hm)
        simp [List.nodup_append, h, hfa]
    · rw [if_neg hcond]
      exact ih arch h

/-- C5: the archiver moves a local `article/*.html` (resp.
`video/*.mp4`) file into `archive/article/` (resp. `archive/video/`)
exactly when its extension-stripped name is absent from the sanitized
titles of the current bookmarks and no same-named archive file exists
(the duplicate is left in place, not an error); it never overwrites an
archive file (a duplicate-free archive stays duplicate-free) and never
deletes a file (directory plus archive is preserved up to
permutation). -/
theorem archiver_moves_exactly_stale (fs : FS) (bms : List Bookmark)
    (hA : fs.article.Nodup) (hV : fs.video.Nodup) :
    (∀ f ∈ fs.article, hasSuffix ".html" f = true →
      ((f ∉ (archive_removed_bookmarks_enhanced fs bms).article
          ∧ f ∈ (archive_removed_bookmarks_enhanced fs bms).archiveArticle) ↔
        (dropLastChars f 5 ∉ current_online_titles bms ∧ f ∉ fs.archiveArticle)))
    ∧ (∀ f ∈ fs.video, hasSuffix ".mp4" f = true →
      ((f ∉ (archive_removed_bookmarks_enhanced fs bms).video
          ∧ f ∈ (archive_removed_bookmarks_enhanced fs bms).archiveVideo) ↔
        (dropLastChars f 4 ∉ current_online_titles bms ∧ f ∉ fs.archiveVideo)))
    ∧ ((archive_removed_bookmarks_enhanced fs bms).article
        ++ (archive_removed_bookmarks_enhanced fs bms).archiveArticle).Perm
          (fs.article ++ fs.archiveArticle)
    ∧ ((archive_removed_bookmarks_enhanced fs bms).video
        ++ (archive_removed_bookmarks_enhanced fs bms).archiveVideo).Perm
          (fs.video ++ fs.archiveVideo)
    ∧ (fs.archiveArticle.Nodup →
        (archive_removed_bookmarks_enhanced fs bms).archiveArticle.Nodup)
    ∧ (fs.archiveVideo.Nodup →
        (archive_removed_bookmarks_enhanced fs bms).archiveVideo.Nodup) := by
  refine ⟨?_, ?_, ?_, ?_, ?_, ?_⟩
  · intro f hf hsuf
    have key := archive_dir_pass_mem ".html" 5 (current_online_titles bms)
      fs.article fs.archiveArticle hA f hf
    simp only [archive_removed_bookmarks_enhanced]
    by_cases hc : (hasSuffix ".html" f
        && !(current_online_titles bms).contains (dropLastChars f 5)) = true
        ∧ f ∉ fs.archiveArticle
    · rw [if_pos hc] at key
      constructor
      · intro _
        refine ⟨?_, hc.2⟩
        have hb := hc.1
        simp [hsuf] at hb
        exact hb
      · intro _
        exact key
    · rw [if_neg hc] at key
      constructor
      · intro h
        exact absurd key.1 h.1
      · intro h
        exfalso
        apply hc
        refine ⟨?_, h.2⟩
        simp [hsuf]
        exact h.1
  · intro f hf hsuf
    have key := archive_dir_pass_mem ".mp4" 4 (current_online_titles bms)
      fs.video fs.archiveVideo hV f hf
    simp only [archive_removed_bookmarks_enhanced]
    by_cases hc : (hasSuffix ".mp4" f
        && !(current_online_titles bms).contains (dropLastChars f 4)) = true
        ∧ f ∉ fs.archiveVideo
    · rw [if_pos hc] at key
      constructor
      · intro _
        refine ⟨?_, hc.2⟩
        have hb := hc.1
        simp [hsuf] at hb
        exact hb
      · intro _
        exact key
    · rw [if_neg hc] at key
      constructor
      · intro h
        exact absurd key.1 h.1
      · intro h
        exfalso
        apply hc
        refine ⟨?_, h.2⟩
        simp [hsuf]
        exact h.1
  · simp only [archive_removed_bookmarks_enhanced]
    exact archive_dir_pass_perm ".html" 5 (current_online_titles bms)
      fs.article fs.archiveArticle
  · simp only [archive_removed_bookmarks_enhanced]
    exact archive_dir_pass_perm ".mp4" 4 (current_online_titles bms)
      fs.video fs.archiveVideo
  · intro h
    simp only [archive_removed_bookmarks_enhanced]
    exact archive_dir_pass_arch_nodup ".html" 5 (current_online_titles bms)
      fs.article fs.archiveArticle h
  · intro h
    simp only [archive_removed_bookmarks_enhanced]
    exact archive_dir_pass_arch_nodup ".mp4" 4 (current_online_titles bms)
      fs.video fs.archiveVideo h

/-- Witness for C5: one stale article, one kept article and one stale
video on disk, one current bookmark. -/
theorem archiver_moves_exactly_stale_witness :
    (∀ f ∈ (⟨["gone.html", "keep.html"], ["v.mp4"], [], []⟩ : FS).article,
      hasSuffix ".html" f = true →
      ((f ∉ (archive_removed_bookmarks_enhanced
              ⟨["gone.html", "keep.html"], ["v.mp4"], [], []⟩
              [⟨some "u", "keep", "article"⟩]).article
          ∧ f ∈ (archive_removed_bookmarks_enhanced
              ⟨["gone.html", "keep.html"], ["v.mp4"], [], []⟩
              [⟨some "u", "keep", "article"⟩]).archiveArticle) ↔
        (dropLastChars f 5 ∉ current_online_titles [⟨some "u", "keep", "article"⟩]
          ∧ f ∉ (⟨["gone.html", "keep.html"], ["v.mp4"], [], []⟩ : FS).archiveArticle)))
    ∧ (∀ f ∈ (⟨["gone.html", "keep.html"], ["v.mp4"], [], []⟩ : FS).video,
      hasSuffix ".mp4" f = true →
      ((f ∉ (archive_removed_bookmarks_enhanced
              ⟨["gone.html", "keep.html"], ["v.mp4"], [], []⟩
              [⟨some "u", "keep", "article"⟩]).video
          ∧ f ∈ (archive_removed_bookmarks_enhanced
              ⟨["gone.html", "keep.html"], ["v.mp4"], [], []⟩
              [⟨some "u", "keep", "article"⟩]).archiveVideo) ↔
        (dropLastChars f 4 ∉ current_online_titles [⟨some "u", "keep", "article"⟩]
          ∧ f ∉ (⟨["gone.html", "keep.html"], ["v.mp4"], [], []⟩ : FS).archiveVideo)))
    ∧ ((archive_removed_bookmarks_enhanced
          ⟨["gone.html", "keep.html"], ["v.mp4"], [], []⟩
          [⟨some "u", "keep", "article"⟩]).article
        ++ (archive_removed_bookmarks_enhanced
          ⟨["gone.html", "keep.html"], ["v.mp4"], [], []⟩
          [⟨some "u", "keep", "article"⟩]).archiveArticle).Perm
          ((⟨["gone.html", "keep.html"], ["v.mp4"], [], []⟩ : FS).article
            ++ (⟨["gone.html", "keep.html"], ["v.mp4"], [], []⟩ : FS).archiveArticle)
    ∧ ((archive_removed_bookmarks_enhanced
          ⟨["gone.html", "keep.html"], ["v.mp4"], [], []⟩
          [⟨some "u", "keep", "article"⟩]).video
        ++ (archive_removed_bookmarks_enhanced
          ⟨["gone.html", "keep.html"], ["v.mp4"], [], []⟩
          [⟨some "u", "keep", "article"⟩]).archiveVideo).Perm
          ((⟨["gone.html", "keep.html"], ["v.mp4"], [], []⟩ : FS).video
            ++ (⟨["gone.html", "keep.html"], ["v.mp4"], [], []⟩ : FS).archiveVideo)
    ∧ ((⟨["gone.html", "keep.html"], ["v.mp4"], [], []⟩ : FS).archiveArticle.Nodup →
        (archive_removed_bookmarks_enhanced
          ⟨["gone.html", "keep.html"], ["v.mp4"], [], []⟩
          [⟨some "u", "keep", "article"⟩]).archiveArticle.Nodup)
    ∧ ((⟨["gone.html", "keep.html"], ["v.mp4"], [], []⟩ : FS).archiveVideo.Nodup →
        (archive_removed_bookmarks_enhanced
          ⟨["gone.html", "keep.html"], ["v.mp4"], [], []⟩
          [⟨some "u", "keep", "article"⟩]).archiveVideo.Nodup) :=
  archiver_moves_exactly_stale ⟨["gone.html", "keep.html"], ["v.mp4"], [], []⟩
    [⟨some "u", "keep", "article"⟩] (by decide) (by decide)

/-- Shared helper: the idempotent skip of `_download_single_bookmark` —
with no cancellation, a linked bookmark whose sanitized title is already
in the downloaded set is reported as a success, only its URL is recorded
in the online set, and no collaborator is invoked. -/
theorem download_skip (VIDEO articleOk videoOk : Bool) (videoFiles : List String)
    (bm : Bookmark) (st : RunState) (l : String) (hl : bm.link = some l)
    (hd : sanitize_filename bm.title ∈ st.downloaded) :
    download_single_bookmark false false false VIDEO articleOk videoOk videoFiles bm st =
      (some bm, { st with online := l :: st.online }, []) := by
  obtain ⟨blink, btitle, bkind⟩ := bm
  cases hl
  have hc : st.downloaded.contains (sanitize_filename btitle) = true :=
    contains_iff_mem.mpr hd
  simp only [download_single_bookmark, hc]
  simp [hd]

/-- Shared helper: one download step never removes a key from the
downloaded set. -/
theorem download_downloaded_mono (VIDEO articleOk videoOk : Bool)
    (videoFiles : List String) (bm : Bookmark) (st : RunState) :
    st.downloaded ⊆
      (download_single_bookmark false false false VIDEO articleOk videoOk
        videoFiles bm st).2.1.downloaded := by
  obtain ⟨blink, btitle, bkind⟩ := bm
  cases blink with
  | none => simp [download_single_bookmark]
  | some l =>
    simp only [download_single_bookmark]
    repeat' split
    all_goals (intro x hx; simp [hx])

/-- Shared helper: a dispatch phase in which every linked bookmark's
sanitized title is already in the downloaded set performs no
collaborator invocation and leaves the downloaded set and the file tree
unchanged. -/
theorem dispatch_all_skipped (VIDEO : Bool) (articleOk videoOk : Bookmark → Bool)
    (videoFiles : Bookmark → List String) :
    ∀ (bms : List Bookmark) (st : RunState),
      (∀ bm ∈ bms, ∀ l, bm.link = some l →
        sanitize_filename bm.title ∈ st.downloaded) →
      (dispatch_bookmarks VIDEO articleOk videoOk videoFiles bms st).2 = []
      ∧ (dispatch_bookmarks VIDEO articleOk videoOk videoFiles bms st).1.downloaded
          = st.downloaded
      ∧ (dispatch_bookmarks VIDEO articleOk videoOk videoFiles bms st).1.fs = st.fs := by
  intro bms
  induction bms with
  | nil =>
    intro st _
    exact ⟨rfl, rfl, rfl⟩
  | cons bm rest ih =>
    intro st hall
    have hrest : ∀ b ∈ rest, ∀ l, b.link = some l →
        sanitize_filename b.title ∈ st.downloaded :=
      fun b hb => hall b (List.mem_cons_of_mem bm hb)
    cases hlink : bm.link with
    | none =>
      have hstep : download_single_bookmark false false false VIDEO
          (articleOk bm) (videoOk bm) (videoFiles bm) bm st = (none, st, []) := by
        obtain ⟨blink, btitle, bkind⟩ := bm
        cases hlink
        simp [download_single_bookmark]
      simp only [dispatch_bookmarks, hstep]
      have := ih st hrest
      simpa using this
    | some l =>
      have hstep := download_skip VIDEO (articleOk bm) (videoOk bm) (videoFiles bm)
        bm st l hlink (hall bm (List.mem_cons_self _ _) l hlink)
      simp only [dispatch_bookmarks, hstep]
      have := ih { st with online := l :: st.online } hrest
      simpa using this

/-- Shared helper: an article file name built from a sanitized title
carries the `.html` extension. -/
theorem hasSuffix_append_html (s : String) : hasSuffix ".html" (s ++ ".html") = true := by
  unfold hasSuffix
  rw [String.data_append]
  simp

/-- Shared helper: the scanner inverts the article file naming — the
scanned key of `s ++ ".html"` is `s` again. -/
theorem dropLastChars_append_html (s : String) : dropLastChars (s ++ ".html") 5 = s := by
  unfold dropLastChars
  rw [String.data_append]
  have h5 : ".html".data.length = 5 := by decide
  have h : (s.data ++ ".html".data).length - 5 = s.data.length := by
    rw [List.length_append, h5]
    omega
  rw [h, List.take_left]

/-- Shared helper: adding one file to `article/` only grows the scanned
key set, and if the new file carries `.html` its key is scanned. -/
theorem scan_cons_article (fs : FS) (x : String) :
    (∀ s ∈ scan_existing_files fs,
      s ∈ scan_existing_files ⟨x :: fs.article, fs.video, fs.archiveArticle, fs.archiveVideo⟩)
    ∧ (hasSuffix ".html" x = true →
      dropLastChars x 5 ∈
        scan_existing_files ⟨x :: fs.article, fs.video, fs.archiveArticle, fs.archiveVideo⟩) := by
  constructor
  · intro s hs
    simp only [scan_existing_files] at hs ⊢
    rcases List.mem_append.mp hs with h | h
    · apply List.mem_append_left
      simp only [List.filter_cons]
      by_cases hx : hasSuffix ".html" x = true
      · rw [if_pos hx, List.map_cons]
        exact List.mem_cons_of_mem _ h
      · rw [if_neg hx]
        exact h
    · exact List.mem_append_right _ h
  · intro hx
    simp only [scan_existing_files]
    apply List.mem_append_left
    rw [List.filter_cons, if_pos hx, List.map_cons]
    exact List.mem_cons_self _ _

/-- Shared helper: one article download step preserves the invariant
that every downloaded key is scannable from disk, and establishes the
key of the processed bookmark. -/
theorem download_article_invariant (VIDEO videoOk2 : Bool) (videoFiles : List String)
    (bm : Bookmark) (st : RunState) (hkind : bm.kind = "article")
    (hinv : ∀ s ∈ st.downloaded, s ∈ scan_existing_files st.fs) :
    (∀ s ∈ (download_single_bookmark false false false VIDEO true videoOk2
        videoFiles bm st).2.1.downloaded,
      s ∈ scan_existing_files (download_single_bookmark false false false VIDEO true
        videoOk2 videoFiles bm st).2.1.fs)
    ∧ (∀ l, bm.link = some l →
        sanitize_filename bm.title ∈ (download_single_bookmark false false false VIDEO
          true videoOk2 videoFiles bm st).2.1.downloaded) := by
  obtain ⟨blink, btitle, bkind⟩ := bm
  simp only [Bookmark.kind] at hkind
  subst hkind
  cases blink with
  | none =>
    have hstep : download_single_bookmark false false false VIDEO true videoOk2
        videoFiles ⟨none, btitle, "article"⟩ st = (none, st, []) := by
      simp [download_single_bookmark]
    rw [hstep]
    exact ⟨hinv, fun l hl => by simp at hl⟩
  | some l =>
    by_cases hc : st.downloaded.contains (sanitize_filename btitle) = true
    · have hstep : download_single_bookmark false false false VIDEO true videoOk2
          videoFiles ⟨some l, btitle, "article"⟩ st =
          (some ⟨some l, btitle, "article"⟩, { st with online := l :: st.online }, []) :=
        download_skip VIDEO true videoOk2 videoFiles ⟨some l, btitle, "article"⟩ st l rfl
          (contains_iff_mem.mp hc)
      rw [hstep]
      exact ⟨hinv, fun l2 _ => contains_iff_mem.mp hc⟩
    · have hd2 : sanitize_filename btitle ∉ st.downloaded :=
        fun h => hc (contains_iff_mem.mpr h)
      have hstep : download_single_bookmark false false false VIDEO true videoOk2
          videoFiles ⟨some l, btitle, "article"⟩ st =
          (some ⟨some l, btitle, "article"⟩,
           ⟨l :: st.online, sanitize_filename btitle :: st.downloaded,
            ⟨(sanitize_filename btitle ++ ".html") :: st.fs.article, st.fs.video,
             st.fs.archiveArticle, st.fs.archiveVideo⟩⟩,
           [Effect.article l btitle]) := by
        simp [download_single_bookmark, hd2]
      rw [hstep]
      constructor
      · intro s hs
        rcases List.mem_cons.mp hs with rfl | hs2
        · have hmem := (scan_cons_article st.fs (sanitize_filename btitle ++ ".html")).2
            (hasSuffix_append_html (sanitize_filename btitle))
          rw [dropLastChars_append_html] at hmem
          exact hmem
        · exact (scan_cons_article st.fs (sanitize_filename btitle ++ ".html")).1 s
            (hinv s hs2)
      · intro l2 _
        exact List.mem_cons_self _ _

/-- Shared helper: a dispatch phase never removes a key from the
downloaded set. -/
theorem dispatch_downloaded_mono (VIDEO : Bool) (articleOk videoOk : Bookmark → Bool)
    (videoFiles : Bookmark → List String) :
    ∀ (bms : List Bookmark) (st : RunState),
      st.downloaded ⊆
        (dispatch_bookmarks VIDEO articleOk videoOk videoFiles bms st).1.downloaded := by
  intro bms
  induction bms with
  | nil =>
    intro st x hx
    exact hx
  | cons bm rest ih =>
    intro st x hx
    simp only [dispatch_bookmarks]
    exact ih _ (download_downloaded_mono VIDEO (articleOk bm) (videoOk bm)
      (videoFiles bm) bm st hx)

/-- Shared helper: a dispatch phase over article bookmarks whose
downloads all succeed keeps every downloaded key scannable from disk and
records the key of every linked bookmark. -/
theorem dispatch_article_invariant (VIDEO : Bool) (articleOk videoOk : Bookmark → Bool)
    (videoFiles : Bookmark → List String) :
    ∀ (bms : List Bookmark) (st : RunState),
      (∀ bm ∈ bms, bm.kind = "article") →
      (∀ bm ∈ bms, articleOk bm = true) →
      (∀ s ∈ st.downloaded, s ∈ scan_existing_files st.fs) →
      (∀ s ∈ (dispatch_bookmarks VIDEO articleOk videoOk videoFiles bms st).1.downloaded,
        s ∈ scan_existing_files
          (dispatch_bookmarks VIDEO articleOk videoOk videoFiles bms st).1.fs)
      ∧ (∀ bm ∈ bms, ∀ l, bm.link = some l →
          sanitize_filename bm.title ∈
            (dispatch_bookmarks VIDEO articleOk videoOk videoFiles bms st).1.downloaded) := by
  intro bms
  induction bms with
  | nil =>
    intro st _ _ hinv
    exact ⟨hinv, fun bm hbm => absurd hbm (List.not_mem_nil bm)⟩
  | cons bm rest ih =>
    intro st hkind hok hinv
    have hok1 : articleOk bm = true := hok bm (List.mem_cons_self _ _)
    have step := download_article_invariant VIDEO (videoOk bm) (videoFiles bm) bm st
      (hkind bm (List.mem_cons_self _ _)) hinv
    have tail := ih (download_single_bookmark false false false VIDEO true (videoOk bm)
        (videoFiles bm) bm st).2.1
      (fun b hb => hkind b (List.mem_cons_of_mem bm hb))
      (fun b hb => hok b (List.mem_cons_of_mem bm hb)) step.1
    have heq : (dispatch_bookmarks VIDEO articleOk videoOk videoFiles (bm :: rest) st).1 =
        (dispatch_bookmarks VIDEO articleOk videoOk videoFiles rest
          (download_single_bookmark false false false VIDEO true (videoOk bm)
            (videoFiles bm) bm st).2.1).1 := by
      simp only [dispatch_bookmarks, hok1]
    rw [heq]
    refine ⟨tail.1, ?_⟩
    intro b hb l hl
    rcases List.mem_cons.mp hb with rfl | hb2
    · exact dispatch_downloaded_mono VIDEO articleOk videoOk videoFiles rest _
        (step.2 l hl)
    · exact tail.2 b hb2 l hl

/-- Counterexample for C3: with video downloads enabled, a second sync
over an unchanged remote set is not free of new downloads.  One video
bookmark titled "T" is synced; the video collaborator succeeds but names
the file from its own metadata ("Other.mp4" — `youtube.save` is never
given the bookmark title).  The second run scans the key "Other", does
not find "T", and invokes the video collaborator again. -/
theorem second_sync_reinvokes_video_collaborator :
    (dispatch_bookmarks true (fun _ => true) (fun _ => true) (fun _ => ["Other.mp4"])
      [⟨some "u", "T", "video"⟩]
      ⟨[],
       scan_existing_files
         (dispatch_bookmarks true (fun _ => true) (fun _ => true)
           (fun _ => ["Other.mp4"]) [⟨some "u", "T", "video"⟩]
           ⟨[], scan_existing_files ⟨[], [], [], []⟩, ⟨[], [], [], []⟩⟩).1.fs,
       (dispatch_bookmarks true (fun _ => true) (fun _ => true)
         (fun _ => ["Other.mp4"]) [⟨some "u", "T", "video"⟩]
         ⟨[], scan_existing_files ⟨[], [], [], []⟩, ⟨[], [], [], []⟩⟩).1.fs⟩).2 =
      [Effect.video "u"] := by
  decide

/-- C3 amended: a bookmark whose sanitized title key is already in the
run's downloaded set short-circuits as a success without invoking the
article or video collaborator; a dispatch phase in which every linked
bookmark's key is already in the downloaded set (as populated by the
filesystem scan) performs zero collaborator invocations; and hence a
second sync with an unchanged remote set performs zero new downloads for
runs of article bookmarks whose first-run downloads all succeeded.  (For
video bookmarks the second-run guarantee of the original claim fails,
because the on-disk video name comes from the collaborator rather than
the sanitized bookmark title — see the counterexample.) -/
theorem idempotent_skip_and_second_run :
    (∀ (VIDEO articleOk videoOk : Bool) (videoFiles : List String)
        (bm : Bookmark) (st : RunState) (l : String),
        bm.link = some l →
        sanitize_filename bm.title ∈ st.downloaded →
        download_single_bookmark false false false VIDEO articleOk videoOk
            videoFiles bm st =
          (some bm, { st with online := l :: st.online }, []))
    ∧ (∀ (VIDEO : Bool) (articleOk videoOk : Bookmark → Bool)
        (videoFiles : Bookmark → List String) (bms : List Bookmark) (st : RunState),
        (∀ bm ∈ bms, ∀ l, bm.link = some l →
          sanitize_filename bm.title ∈ st.downloaded) →
        (dispatch_bookmarks VIDEO articleOk videoOk videoFiles bms st).2 = [])
    ∧ (∀ (VIDEO : Bool) (articleOk videoOk : Bookmark → Bool)
        (videoFiles : Bookmark → List String) (bms : List Bookmark) (fs : FS),
        (∀ bm ∈ bms, bm.kind = "article") →
        (∀ bm ∈ bms, articleOk bm = true) →
        (dispatch_bookmarks VIDEO articleOk videoOk videoFiles bms
          ⟨[],
           scan_existing_files
             (dispatch_bookmarks VIDEO articleOk videoOk videoFiles bms
               ⟨[], scan_existing_files fs, fs⟩).1.fs,
           (dispatch_bookmarks VIDEO articleOk videoOk videoFiles bms
             ⟨[], scan_existing_files fs, fs⟩).1.fs⟩).2 = []) := by
  refine ⟨?_, ?_, ?_⟩
  · intro VIDEO articleOk videoOk videoFiles bm st l hl hd
    exact download_skip VIDEO articleOk videoOk videoFiles bm st l hl hd
  · intro VIDEO articleOk videoOk videoFiles bms st hall
    exact (dispatch_all_skipped VIDEO articleOk videoOk videoFiles bms st hall).1
  · intro VIDEO articleOk videoOk videoFiles bms fs hkind hok
    have inv := dispatch_article_invariant VIDEO articleOk videoOk videoFiles bms
      ⟨[], scan_existing_files fs, fs⟩ hkind hok (fun s hs => hs)
    refine (dispatch_all_skipped VIDEO articleOk videoOk videoFiles bms _ ?_).1
    intro bm hbm l hl
    exact inv.1 _ (inv.2 bm hbm l hl)

/-- Witness for C3: one article bookmark, empty disk, successful first
run — the second run invokes no collaborator. -/
theorem idempotent_skip_and_second_run_witness :
    (∀ bm ∈ [(⟨some "u", "A", "article"⟩ : Bookmark)], bm.kind = "article")
    ∧ (dispatch_bookmarks false (fun _ => true) (fun _ => true) (fun _ => [])
        [⟨some "u", "A", "article"⟩]
        ⟨[],
         scan_existing_files
           (dispatch_bookmarks false (fun _ => true) (fun _ => true) (fun _ => [])
             [⟨some "u", "A", "article"⟩]
             ⟨[], scan_existing_files ⟨[], [], [], []⟩, ⟨[], [], [], []⟩⟩).1.fs,
         (dispatch_bookmarks false (fun _ => true) (fun _ => true) (fun _ => [])
           [⟨some "u", "A", "article"⟩]
           ⟨[], scan_existing_files ⟨[], [], [], []⟩, ⟨[], [], [], []⟩⟩).1.fs⟩).2 = [] :=
  ⟨by decide,
   idempotent_skip_and_second_run.2.2 false (fun _ => true) (fun _ => true)
     (fun _ => []) [⟨some "u", "A", "article"⟩] ⟨[], [], [], []⟩
     (by decide) (fun _ _ => rfl)⟩

end OfflineMode
